import Mathlib

/-!
Verification development for the CrawlFlow pipeline
(src/extractor.py, src/crawler.py, src/transformer.py, src/aggregator.py).

The Python modules are shallowly embedded: pure text manipulation is
translated exactly; HTTP fetching, HTML parsing (BeautifulSoup) and the
file system are modelled as explicit oracle functions carried in "world"
structures, with files represented as association lists / Option-valued
maps.  Machine integers do not occur (Python ints are unbounded; all
counts here are Nat).
-/

/-- Python whitespace (the `str.isspace` set, which is also what the regex
`\s` matches on `str` patterns): the characters collapsed by
`re.sub(r'\s+', ' ', ...)` and stripped by `str.strip()` inside
`extractor.clean_text`.  The zero-width characters U+200B/U+200C/U+200D/U+FEFF
are NOT in this set. -/
def isPySpace (c : Char) : Bool :=
  let n := c.toNat
  (9 ≤ n && n ≤ 13) || (28 ≤ n && n ≤ 31) || n == 32 || n == 133 || n == 160 ||
  n == 0x1680 || (0x2000 ≤ n && n ≤ 0x200A) || n == 0x2028 || n == 0x2029 ||
  n == 0x202F || n == 0x205F || n == 0x3000

/-- The zero-width characters removed by
`re.sub` on the character class U+200B/U+200C/U+200D/U+FEFF in `clean_text`. -/
def isZW (c : Char) : Bool :=
  let n := c.toNat
  n == 0x200B || n == 0x200C || n == 0x200D || n == 0xFEFF

/-- Drop the longest suffix of characters satisfying `p` (the right half of
Python `str.strip()`). -/
def dropEndWhile (p : Char → Bool) (l : List Char) : List Char :=
  (l.reverse.dropWhile p).reverse

/-- `text.strip()` on the character list. -/
def stripL (l : List Char) : List Char :=
  dropEndWhile isPySpace (l.dropWhile isPySpace)

/-- Transducer for `re.sub(r'\s+', ' ', text)`: the Boolean records whether
the previous character belonged to a whitespace run that was already
replaced by a single space. -/
def collapseAux : Bool → List Char → List Char
  | _, [] => []
  | prevWS, c :: rest =>
    if isPySpace c then
      if prevWS then collapseAux true rest else ' ' :: collapseAux true rest
    else c :: collapseAux false rest

/-- `re.sub(r'\s+', ' ', text)`. -/
def collapseWS (l : List Char) : List Char := collapseAux false l

/-- Deletion of the zero-width characters, the final step of `clean_text`. -/
def removeZW (l : List Char) : List Char := l.filter (fun c => !(isZW c))

/-- `extractor.clean_text`: empty input short-circuits; otherwise strip,
collapse whitespace runs to single spaces, then delete zero-width
characters — in exactly that order, as in the source. -/
def clean_text (text : String) : String :=
  if text = "" then ""
  else ⟨removeZW (collapseWS (stripL text.data))⟩

/-- No two adjacent whitespace characters, i.e. every whitespace run has
length at most one. -/
def noWSRun : List Char → Bool
  | a :: b :: rest => !(isPySpace a && isPySpace b) && noWSRun (b :: rest)
  | _ => true

/-- Claim-side predicate: the string contains no whitespace run longer than
one character. -/
def wsRunBounded (s : String) : Bool := noWSRun s.data

/-- Claim-side predicate: the string contains a zero-width character. -/
def hasZW (s : String) : Bool := s.data.any (fun c => isZW c)

/-- Every whitespace character in the list is the plain space `' '`. -/
def spacesOnly (l : List Char) : Bool := l.all (fun c => !(isPySpace c) || c == ' ')

/-! ### String helpers shared by the crawler embedding -/

/-- `p` is a leading run of `l` (used for Python `startswith` and for
substring search). -/
def isPrefixL : List Char → List Char → Bool
  | [], _ => true
  | _ :: _, [] => false
  | a :: as, b :: bs => a == b && isPrefixL as bs

/-- Python `needle in hay` on strings: `needle` occurs contiguously in `hay`. -/
def containsL (needle : List Char) : List Char → Bool
  | [] => isPrefixL needle []
  | hay@(_ :: rest) => isPrefixL needle hay || containsL needle rest

def startsWithStr (s p : String) : Bool := isPrefixL p.data s.data

def containsSubStr (s pat : String) : Bool := containsL pat.data s.data

/-- Python `str.lower()` (the URLs handled by the crawler are ASCII). -/
def toLowerStr (s : String) : String := ⟨s.data.map Char.toLower⟩

/-- Python `str.strip()`. -/
def stripStr (s : String) : String := ⟨stripL s.data⟩

/-! ### Link Classifier (crawler.py lines 110-133) -/

/-- The keyword list used by `crawl_website` to detect case-study candidates. -/
def caseStudyKeywords : List String :=
  ["case-study", "case-studies", "success-story", "success-stories",
   "customer-story", "customer-stories", "case", "stories", "/clients/", "/work/"]

/-- One iteration of the link-classification loop of `crawl_website`:
`rawHref` is the anchor's `href` attribute, `resolve` stands for
`urljoin(url, ·)` (an oracle: URL resolution is performed by the standard
library), `st` is the pair (case_study_candidates, internal_candidates). -/
def classifyStep (resolve : String → String) (url : String) (maxI : Nat)
    (st : List String × List String) (rawHref : String) : List String × List String :=
  let href := stripStr rawHref
  let full := resolve href
  if !(startsWithStr full "http://" || startsWithStr full "https://") then st
  else if containsSubStr href "#" || containsSubStr (toLowerStr href) "javascript:" then st
  else if caseStudyKeywords.any (fun kw => containsSubStr (toLowerStr href) kw) then
    (if full ∈ st.1 then st else (st.1 ++ [full], st.2))
  else if startsWithStr full url && full ≠ url then
    (if st.2.length < maxI then (st.1, st.2 ++ [full]) else st)
  else st

/-- The whole classification loop over the homepage anchors, in document
order, starting from two empty candidate lists. -/
def classifyLinks (resolve : String → String) (url : String) (maxI : Nat)
    (hrefs : List String) : List String × List String :=
  hrefs.foldl (classifyStep resolve url maxI) ([], [])

/-! ### Site Crawler (crawler.py, crawl_website) -/

/-- Outcome of one `rate_limited_request` call: an HTTP response with status
and body text, or a raised transport exception. -/
inductive Fetch where
  | ok (status : Nat) (body : String)
  | err (msg : String)
deriving Repr, DecidableEq

/-- Oracles for the effectful parts of `crawl_website`: the HTTP client,
`urljoin` (as `resolve base href`) and the BeautifulSoup anchor scan
(`hrefsOf html` = the `href` attributes of `<a href=...>` tags in document
order; `none` models a raised parsing exception). -/
structure CrawlWorld where
  fetch : String → Fetch
  resolve : String → String → String
  hrefsOf : String → Option (List String)

/-- One entry of `metadata['pages']`: either
`{url, status, size_bytes, timestamp}` or `{status: 0, error}`. -/
structure PageMeta where
  url : Option String
  status : Nat
  size_bytes : Option Nat
  timestamp : Option String
  error : Option String
deriving Repr, DecidableEq

def okMeta (u : String) (st sz : Nat) (ts : String) : PageMeta :=
  { url := some u, status := st, size_bytes := some sz,
    timestamp := some ts, error := none }

def errMeta (e : String) : PageMeta :=
  { url := none, status := 0, size_bytes := none, timestamp := none, error := some e }

/-- The observable outcome of `crawl_website`: the returned status/reason,
the HTML files written into the site's raw directory (in write order, paths
relative to it), the `metadata['pages']` entries in insertion order, whether
`metadata.json` was written, and the returned `case_studies_found` count. -/
structure CrawlResult where
  status : String
  reason : Option String
  files : List (String × String)
  pages : List (String × PageMeta)
  metadataWritten : Bool
  case_studies_found : Option Nat
deriving Repr, DecidableEq

/-- `f'{i:02d}'` as used in the `case_study_{i:02d}` page ids. -/
def pad2 (i : Nat) : String := if i < 10 then "0" ++ toString i else toString i

/-- The case-study fetch loop of `crawl_website` (lines 139-162):
`for i, case_url in enumerate(case_study_candidates[:max_case_studies], 1)`.
Only a 200 response writes a file, adds a metadata entry and increments the
fetched counter; a non-200 response or a raised exception is skipped — but
the enumeration index `i` advances for every candidate regardless. -/
def caseLoop (fetch : String → Fetch) (ts : String) :
    List String → Nat → List (String × String) × List (String × PageMeta) × Nat
  | [], _ => ([], [], 0)
  | u :: rest, i =>
    let r := caseLoop fetch ts rest (i + 1)
    match fetch u with
    | .ok 200 body =>
      (("case_study_" ++ pad2 i ++ ".html", body) :: r.1,
       ("case_study_" ++ pad2 i, okMeta u 200 body.length ts) :: r.2.1,
       r.2.2 + 1)
    | _ => r

/-- `crawler.crawl_website`.  Exceptions are modelled where the source
observes them: a transport error on the homepage fetch (`Fetch.err`), and a
parsing failure while discovering links (`hrefsOf = none`); per-candidate
case-study failures are absorbed by `caseLoop`.  Note that on a non-200
homepage the written body is `""` because the source discards non-200 text
(`html = resp.text if status == 200 else ""`). -/
def crawl_website (w : CrawlWorld) (url ts : String) (maxCS maxI : Nat) : CrawlResult :=
  match w.fetch url with
  | .err e =>
    { status := "failed", reason := some "homepage_fetch_error",
      files := [], pages := [("homepage", errMeta e)],
      metadataWritten := false, case_studies_found := none }
  | .ok st body =>
    let html := if st == 200 then body else ""
    if st ≠ 200 then
      { status := "partial", reason := some ("homepage_" ++ toString st),
        files := [("homepage.html", html)],
        pages := [("homepage", okMeta url st html.length ts)],
        metadataWritten := false, case_studies_found := none }
    else
      match w.hrefsOf html with
      | none =>
        { status := "partial", reason := some "parsing_error",
          files := [("homepage.html", html)],
          pages := [("homepage", okMeta url st html.length ts)],
          metadataWritten := false, case_studies_found := none }
      | some hrefs =>
        let cls := classifyLinks (w.resolve url) url maxI hrefs
        let r := caseLoop w.fetch ts (cls.1.take maxCS) 1
        { status := "success", reason := none,
          files := ("homepage.html", html) :: r.1,
          pages := ("homepage", okMeta url st html.length ts) :: r.2.1,
          metadataWritten := true, case_studies_found := some r.2.2 }

/-- The case-study page ids recorded in the crawl metadata. -/
def caseKeys (r : CrawlResult) : List String :=
  (r.pages.filter (fun p => p.1 != "homepage")).map (fun p => p.1)

/-! ### Extraction Stage (extractor.py, extract_and_tag) -/

/-- Oracles for `extract_and_tag`: the site's raw directory (`homepage.html`
and the numbered `case_study_{i:02d}.html` files, 1-based) and
`extract_section_from_html` (whose BeautifulSoup DOM heuristics are treated
as an opaque text-valued function of the HTML and the section kind). -/
structure ExtractWorld where
  rawDirExists : Bool
  homepageFile : Option String
  caseFile : Nat → Option String
  extractSec : String → String → String

inductive ExtractOutcome where
  | skipped (reason : String)
  | success (sections : List (String × String))
deriving Repr, DecidableEq

/-- Ordered-dict lookup (Python `d[k]` / `k in d`), first match. -/
def lookupKey {α : Type} : List (String × α) → String → Option α
  | [], _ => none
  | (k', v) :: rest, k => if k' == k then some v else lookupKey rest k

/-- The case-study scan of `extract_and_tag` (lines 176-188): read
`case_study_{i:02d}.html` for i = 1, 2, ... until a file is missing; extract
each page and keep only the non-empty page texts, in page order.  The
unbounded Python `while True` is modelled with an explicit fuel argument
(any fuel at least the index of the first gap gives the loop's value). -/
def scanCases (ew : ExtractWorld) : Nat → Nat → List String
  | 0, _ => []
  | fuel + 1, i =>
    match ew.caseFile i with
    | none => []
    | some html =>
      let t := ew.extractSec html "case_study"
      if t ≠ "" then t :: scanCases ew fuel (i + 1) else scanCases ew fuel (i + 1)

/-- Python `" ".join`. -/
def joinSpace : List String → String
  | [] => ""
  | [x] => x
  | x :: y :: rest => x ++ " " ++ joinSpace (y :: rest)

/-- The homepage / navbar / footer part of the SectionMap built by
`extract_and_tag` (lines 163-174): homepage section when `homepage.html`
exists; navbar and footer only when the homepage text is non-empty. -/
def extractBase (ew : ExtractWorld) : List (String × String) :=
  match ew.homepageFile with
  | none => []
  | some html =>
    let hp := ew.extractSec html "homepage"
    if hp ≠ "" then
      [("homepage", hp), ("navbar", ew.extractSec html "navbar"),
       ("footer", ew.extractSec html "footer")]
    else [("homepage", hp)]

/-- `extractor.extract_and_tag`: the base sections, then the `case_study`
key only when at least one case-study page yielded non-empty text
(`if case_content:`). -/
def extract_and_tag (ew : ExtractWorld) (fuel : Nat) : ExtractOutcome :=
  if ew.rawDirExists = false then .skipped "no_raw_data"
  else
    let caseTexts := scanCases ew fuel 1
    if caseTexts ≠ [] then .success (extractBase ew ++ [("case_study", joinSpace caseTexts)])
    else .success (extractBase ew)

/-! ### Transform Stage (transformer.py, transform_to_standard) -/

/-- One standardized record (`section` is a Lean keyword, hence
`sectionName`). -/
structure Record where
  website : String
  sectionName : String
  content : String
  crawl_timestamp : String
  isActive : Bool
deriving Repr, DecidableEq

/-- The persisted `extracted.json` artifact (its `sections` object, in
insertion order; JSON object keys are unique). -/
structure Extracted where
  sections : List (String × String)
deriving Repr, DecidableEq

/-- The persisted `metadata.json` artifact (its `pages` object). -/
structure CrawlMetadata where
  pages : List (String × PageMeta)
deriving Repr, DecidableEq

/-- The file-system inputs of `transform_to_standard` for one site. -/
structure TransformInput where
  rawDirExists : Bool
  extractedFile : Option Extracted
  metadataFile : Option CrawlMetadata
deriving Repr, DecidableEq

inductive TransformOutcome where
  | skipped (reason : String)
  | success (records : List Record)
deriving Repr, DecidableEq

/-- `metadata.get("pages", {}).get("homepage", {}).get("status", 500)` —
both metadata page shapes carry a `status` field, so only a missing
`homepage` key falls back to 500. -/
def homepageStatus (md : CrawlMetadata) : Nat :=
  match lookupKey md.pages "homepage" with
  | some pm => pm.status
  | none => 500

/-- `transformer.transform_to_standard`. -/
def transform_to_standard (url : String) (inp : TransformInput) (ts : String) :
    TransformOutcome :=
  if inp.rawDirExists = false then .skipped "no_raw_data"
  else
    match inp.extractedFile, inp.metadataFile with
    | some ex, some md =>
      let is_active := (homepageStatus md == 200) &&
        ex.sections.any (fun p => p.2.length > 0)
      .success (ex.sections.map (fun p =>
        { website := url, sectionName := p.1, content := p.2,
          crawl_timestamp := ts, isActive := is_active }))
    | _, _ => .skipped "missing_inputs"

/-! ### Aggregator (aggregator.py, compute_and_save_metrics) -/

structure SectionStats where
  min : Nat
  max : Nat
  avg : ℚ
  count : Nat
deriving Repr, DecidableEq

structure Summary where
  total_websites_processed : Nat
  num_websites_with_case_studies : Nat
  active_websites : Nat
  inactive_websites : Nat
  content_length_stats : List (String × SectionStats)
  aggregation_timestamp : String
deriving Repr, DecidableEq

inductive AggOutcome where
  | skipped (reason : String)
  | success (summary : Summary)
deriving Repr, DecidableEq

/-- Oracles for the aggregator: the configured website list and, per site,
the contents of its `processed/<domain>.json` record list (`none` = file
absent).  The url → domain-path derivation is absorbed into the oracle. -/
structure AggWorld where
  websites : List String
  processedFile : String → Option (List Record)

/-- Python dict assignment `d[k] = v`: overwrite in place or append. -/
def dictInsert : List (String × Bool) → String → Bool → List (String × Bool)
  | [], k, v => [(k, v)]
  | (k', v') :: rest, k, v =>
    if k' == k then (k', v) :: rest else (k', v') :: dictInsert rest k v

/-- `defaultdict(list)` append: `d[r['section']].append(len(...))`. -/
def dictAppendLen : List (String × List Nat) → String → Nat → List (String × List Nat)
  | [], k, n => [(k, [n])]
  | (k', v) :: rest, k, n =>
    if k' == k then (k', v ++ [n]) :: rest else (k', v) :: dictAppendLen rest k n

/-- One iteration of the gathering loop (aggregator.py lines 34-43):
extend `all_records`, and record the site's `isActive` flag from the first
record when the list is non-empty. -/
def gatherStep (w : AggWorld) (st : List Record × List (String × Bool)) (url : String) :
    List Record × List (String × Bool) :=
  match w.processedFile url with
  | none => st
  | some records =>
    match records with
    | [] => (st.1 ++ records, st.2)
    | r :: _ => (st.1 ++ records, dictInsert st.2 url r.isActive)

def gather (w : AggWorld) : List Record × List (String × Bool) :=
  w.websites.foldl (gatherStep w) ([], [])

/-- The `section_lengths` defaultdict built from `all_records`
(aggregator.py lines 62-65). -/
def sectionLengthsDict (allR : List Record) : List (String × List Nat) :=
  allR.foldl
    (fun d r => if r.content.length > 0 then dictAppendLen d r.sectionName r.content.length else d)
    []

def listMin : List Nat → Nat
  | [] => 0
  | [x] => x
  | x :: y :: rest => Nat.min x (listMin (y :: rest))

def listMax : List Nat → Nat
  | [] => 0
  | [x] => x
  | x :: y :: rest => Nat.max x (listMax (y :: rest))

def listSum : List Nat → Nat
  | [] => 0
  | x :: rest => x + listSum rest

/-- Round half to even of the fraction `p / d` (for `d > 0`): Python `round`
semantics, written on the integer numerator and denominator so that it
evaluates by kernel reduction.  `f` is the floor of the fraction and `r` its
fractional remainder; `2r` against `d` compares the remainder with 1/2. -/
def roundHalfEvenFrac (p : ℤ) (d : ℕ) : ℤ :=
  let f := Int.fdiv p (d : ℤ)
  let r := p - f * (d : ℤ)
  if 2 * r < (d : ℤ) then f
  else if (d : ℤ) < 2 * r then f + 1
  else if f % 2 = 0 then f else f + 1

/-- `round(x, 2)` on exact rationals: `x * 100` has numerator
`x.num * 100` over denominator `x.den` (the source feeds `statistics.mean`
through Python floats; the model uses exact rational arithmetic). -/
def round2 (q : ℚ) : ℚ := mkRat (roundHalfEvenFrac (q.num * 100) q.den) 100

/-- The exact mean of a list of natural numbers, as a rational. -/
def meanOf (lengths : List Nat) : ℚ := mkRat (Int.ofNat (listSum lengths)) lengths.length

/-- `{min, max, avg, count}` for one section's length list. -/
def statsOf (lengths : List Nat) : SectionStats :=
  { min := listMin lengths, max := listMax lengths,
    avg := round2 (meanOf lengths),
    count := lengths.length }

/-- `aggregator.compute_and_save_metrics`. -/
def compute_and_save_metrics (w : AggWorld) (ts : String) : AggOutcome :=
  let g := gather w
  if g.1 = [] then .skipped "no_data"
  else
    .success {
      total_websites_processed := g.2.length,
      num_websites_with_case_studies :=
        (g.1.filter (fun r => r.sectionName == "case_study" && r.content.length > 0)).length,
      active_websites := (g.2.filter (fun p => p.2 == true)).length,
      inactive_websites := (g.2.filter (fun p => p.2 == false)).length,
      content_length_stats := (sectionLengthsDict g.1).map (fun p => (p.1, statsOf p.2)),
      aggregation_timestamp := ts }

/-- Claim-side characterisation for C8: the content lengths of the Records
with non-empty content and section `s`, in record order. -/
def sectionLengthsSpec (allR : List Record) (s : String) : List Nat :=
  (allR.filter (fun r => r.content.length > 0 && r.sectionName == s)).map
    (fun r => r.content.length)

/-! ### Concrete instances used by counterexamples and witnesses -/

/-- A site whose homepage fetch returns HTTP 404. -/
def cw404 : CrawlWorld :=
  { fetch := fun _ => .ok 404 "not found page",
    resolve := fun _ h => h,
    hrefsOf := fun _ => none }

/-- A site whose homepage fetch raises a transport error. -/
def cwErr : CrawlWorld :=
  { fetch := fun _ => .err "connection refused",
    resolve := fun _ h => h,
    hrefsOf := fun _ => none }

/-- A site with two case-study candidates of which the first returns 404 and
the second 200. -/
def cwGap : CrawlWorld :=
  { fetch := fun u =>
      if u = "http://a.com" then .ok 200 "homepage html"
      else if u = "http://a.com/case-study-1" then .ok 404 ""
      else if u = "http://a.com/case-study-2" then .ok 200 "case body"
      else .err "unexpected",
    resolve := fun _ h => h,
    hrefsOf := fun _ => some ["http://a.com/case-study-1", "http://a.com/case-study-2"] }

/-- The raw directory produced by the `cwGap` crawl: `case_study_02.html`
exists but `case_study_01.html` does not. -/
def ewGap : ExtractWorld :=
  { rawDirExists := true,
    homepageFile := some "homepage html",
    caseFile := fun i => if i = 2 then some "case body" else none,
    extractSec := fun _ _ => "some text" }

/-- A raw directory with a single case-study page whose extracted text is
empty. -/
def ewEmptyCase : ExtractWorld :=
  { rawDirExists := true,
    homepageFile := none,
    caseFile := fun i => if i = 1 then some "<p></p>" else none,
    extractSec := fun _ _ => "" }

/-- A raw directory with three case-study pages (the second extracting to
empty text) and a gap at index 4. -/
def ewThree : ExtractWorld :=
  { rawDirExists := true,
    homepageFile := some "<main>home</main>",
    caseFile := fun i =>
      if i = 1 then some "one" else if i = 2 then some "two" else
      if i = 3 then some "three" else none,
    extractSec := fun html kind =>
      if kind = "case_study" then
        (if html = "one" then "alpha" else if html = "two" then "" else
         if html = "three" then "gamma" else "x")
      else "home text" }

def exSample : Extracted :=
  ⟨[("homepage", "Hello world"), ("navbar", ""), ("case_study", "Great success")]⟩

def mdSample : CrawlMetadata :=
  ⟨[("homepage", okMeta "http://a.com" 200 11 "t")]⟩

/-- A record list of one homepage record with content of length `n`. -/
def homepageRecordOfLen (u : String) (n : Nat) : Record :=
  { website := u, sectionName := "homepage", content := ⟨List.replicate n 'x'⟩,
    crawl_timestamp := "t", isActive := true }

/-- Three processed sites with homepage contents of lengths 100, 200 and 300
(the aggregation scenario of the spec). -/
def aggW3 : AggWorld :=
  { websites := ["http://a.com", "http://b.com", "http://c.com"],
    processedFile := fun u =>
      if u = "http://a.com" then some [homepageRecordOfLen u 100]
      else if u = "http://b.com" then some [homepageRecordOfLen u 200]
      else if u = "http://c.com" then some [homepageRecordOfLen u 300]
      else none }

/-- The summary the aggregator computes on `aggW3` (the spec's scenario:
lengths 100/200/300 give min 100, max 300, avg 200.0, count 3). -/
def aggW3summary : Summary :=
  { total_websites_processed := 3, num_websites_with_case_studies := 0,
    active_websites := 3, inactive_websites := 0,
    content_length_stats :=
      [("homepage", { min := 100, max := 300, avg := mkRat 200 1, count := 3 })],
    aggregation_timestamp := "t" }

theorem collapseAux_cons (b : Bool) (c : Char) (rest : List Char) :
    collapseAux b (c :: rest) =
      if isPySpace c then
        (if b then collapseAux true rest else ' ' :: collapseAux true rest)
      else c :: collapseAux false rest := rfl

theorem noWSRun_cons_cons (a b : Char) (rest : List Char) :
    noWSRun (a :: b :: rest) =
      (!(isPySpace a && isPySpace b) && noWSRun (b :: rest)) := rfl

theorem collapseAux_true_head :
    ∀ (l : List Char) (c : Char), (collapseAux true l).head? = some c →
      isPySpace c = false := by
  intro l
  induction l with
  | nil => intro c h; exact absurd h (by simp [collapseAux])
  | cons a rest ih =>
    intro c h
    by_cases hw : isPySpace a = true
    · rw [collapseAux_cons, if_pos hw, if_pos rfl] at h
      exact ih c h
    · rw [collapseAux_cons, if_neg hw] at h
      simp only [List.head?_cons, Option.some.injEq] at h
      subst h
      simpa using hw

theorem collapseAux_false_head (c : Char) (rest : List Char)
    (h : isPySpace c = false) :
    (collapseAux false (c :: rest)).head? = some c := by
  rw [collapseAux_cons, if_neg (by simp [h])]
  rfl

theorem noWSRun_cons_of (a : Char) (l : List Char)
    (h1 : ∀ b, l.head? = some b → (isPySpace a && isPySpace b) = false)
    (h2 : noWSRun l = true) : noWSRun (a :: l) = true := by
  cases l with
  | nil => rfl
  | cons b rest =>
    rw [noWSRun_cons_cons, h1 b rfl, h2]
    rfl

theorem noWSRun_collapseAux : ∀ (l : List Char) (b : Bool),
    noWSRun (collapseAux b l) = true := by
  intro l
  induction l with
  | nil => intro b; rfl
  | cons c rest ih =>
    intro b
    by_cases hw : isPySpace c = true
    · cases b with
      | true =>
        rw [collapseAux_cons, if_pos hw, if_pos rfl]
        exact ih true
      | false =>
        rw [collapseAux_cons, if_pos hw, if_neg (by simp)]
        refine noWSRun_cons_of _ _ ?_ (ih true)
        intro d hd
        rw [collapseAux_true_head rest d hd]
        simp
    · rw [collapseAux_cons, if_neg hw]
      refine noWSRun_cons_of _ _ ?_ (ih false)
      intro d _
      have hc : isPySpace c = false := by simpa using hw
      rw [hc]
      simp

theorem spacesOnly_collapseAux : ∀ (l : List Char) (b : Bool),
    spacesOnly (collapseAux b l) = true := by
  intro l
  induction l with
  | nil => intro b; rfl
  | cons c rest ih =>
    intro b
    by_cases hw : isPySpace c = true
    · cases b with
      | true =>
        rw [collapseAux_cons, if_pos hw, if_pos rfl]
        exact ih true
      | false =>
        rw [collapseAux_cons, if_pos hw, if_neg (by simp)]
        simp only [spacesOnly, List.all_cons, Bool.and_eq_true]
        exact ⟨by decide, by simpa [spacesOnly] using ih true⟩
    · rw [collapseAux_cons, if_neg hw]
      simp only [spacesOnly, List.all_cons, Bool.and_eq_true]
      refine ⟨?_, by simpa [spacesOnly] using ih false⟩
      have hc : isPySpace c = false := by simpa using hw
      simp [hc]

theorem getLast?_cons_of_ne_nil {l : List Char} (a : Char) (h : l ≠ []) :
    (a :: l).getLast? = l.getLast? := by
  cases l with
  | nil => exact absurd rfl h
  | cons b m => simp [List.getLast?_cons_cons]

theorem collapseAux_getLast : ∀ (l : List Char) (b : Bool) (c : Char),
    l.getLast? = some c → isPySpace c = false →
    (collapseAux b l).getLast? = some c := by
  intro l
  induction l with
  | nil => intro b c h _; simp at h
  | cons a rest ih =>
    intro b c h hc
    cases rest with
    | nil =>
      simp at h
      subst h
      rw [collapseAux_cons, if_neg (by simp [hc])]
      rfl
    | cons d rest' =>
      have hrest : (d :: rest').getLast? = some c := by
        rw [List.getLast?_cons_cons] at h
        exact h
      by_cases hw : isPySpace a = true
      · cases b with
        | true =>
          rw [collapseAux_cons, if_pos hw, if_pos rfl]
          exact ih true c hrest hc
        | false =>
          rw [collapseAux_cons, if_pos hw, if_neg (by simp)]
          have hm := ih true c hrest hc
          have hne : collapseAux true (d :: rest') ≠ [] := by
            intro hnil; rw [hnil] at hm; simp at hm
          rw [getLast?_cons_of_ne_nil _ hne]
          exact hm
      · rw [collapseAux_cons, if_neg hw]
        have hm := ih false c hrest hc
        have hne : collapseAux false (d :: rest') ≠ [] := by
          intro hnil; rw [hnil] at hm; simp at hm
        rw [getLast?_cons_of_ne_nil _ hne]
        exact hm

theorem noWSRun_tail {a : Char} {l : List Char}
    (h : noWSRun (a :: l) = true) : noWSRun l = true := by
  cases l with
  | nil => rfl
  | cons b m =>
    rw [noWSRun_cons_cons, Bool.and_eq_true] at h
    exact h.2

theorem collapseAux_flag_irrel (d : Char) (rest : List Char)
    (h : isPySpace d = false) :
    collapseAux true (d :: rest) = collapseAux false (d :: rest) := by
  rw [collapseAux_cons, collapseAux_cons, if_neg (by simp [h]), if_neg (by simp [h])]

theorem collapseAux_eq_self : ∀ (l : List Char),
    noWSRun l = true → spacesOnly l = true → collapseAux false l = l := by
  intro l
  induction l with
  | nil => intro _ _; rfl
  | cons c rest ih =>
    intro h1 h2
    have h2' : spacesOnly rest = true := by
      rw [spacesOnly, List.all_cons, Bool.and_eq_true] at h2
      exact h2.2
    by_cases hw : isPySpace c = true
    · have hc : c = ' ' := by
        rw [spacesOnly, List.all_cons, Bool.and_eq_true] at h2
        have := h2.1
        simp [hw] at this
        exact this
      subst hc
      rw [collapseAux_cons, if_pos hw, if_neg (by simp)]
      cases rest with
      | nil => rfl
      | cons d rest' =>
        have hd : isPySpace d = false := by
          rw [noWSRun_cons_cons, Bool.and_eq_true] at h1
          have := h1.1
          simp [hw] at this
          exact this
        rw [collapseAux_flag_irrel d rest' hd]
        rw [ih (noWSRun_tail h1) h2']
    · rw [collapseAux_cons, if_neg hw]
      rw [ih (noWSRun_tail h1) h2']

theorem collapseWS_def (l : List Char) : collapseWS l = collapseAux false l := rfl

theorem head?_append_of_head {l t : List Char} {c : Char} (h : l.head? = some c) :
    (l ++ t).head? = some c := by
  cases l with
  | nil => simp at h
  | cons a m => simpa using h

theorem head_dropWhile (p : Char → Bool) :
    ∀ (l : List Char) (c : Char), (l.dropWhile p).head? = some c → p c = false := by
  intro l
  induction l with
  | nil => intro c h; simp [List.dropWhile] at h
  | cons a m ih =>
    intro c h
    by_cases hp : p a = true
    · rw [List.dropWhile_cons, if_pos hp] at h
      exact ih c h
    · rw [List.dropWhile_cons, if_neg hp] at h
      simp only [List.head?_cons, Option.some.injEq] at h
      subst h
      simpa using hp

theorem dropEndWhile_append (p : Char → Bool) (l : List Char) :
    dropEndWhile p l ++ (l.reverse.takeWhile p).reverse = l := by
  conv_rhs => rw [← List.reverse_reverse l,
    ← List.takeWhile_append_dropWhile p (l := l.reverse)]
  rw [List.reverse_append]
  rfl

theorem stripL_head (l : List Char) (c : Char) (h : (stripL l).head? = some c) :
    isPySpace c = false := by
  have key := dropEndWhile_append isPySpace (l.dropWhile isPySpace)
  have h2 : (l.dropWhile isPySpace).head? = some c := by
    rw [← key]
    exact head?_append_of_head h
  exact head_dropWhile isPySpace l c h2

theorem stripL_getLast (l : List Char) (c : Char) (h : (stripL l).getLast? = some c) :
    isPySpace c = false := by
  have h2 : ((l.dropWhile isPySpace).reverse.dropWhile isPySpace).head? = some c := by
    rw [← List.getLast?_reverse]
    exact h
  exact head_dropWhile isPySpace _ c h2

theorem dropWhile_eq_self_of_head (p : Char → Bool) (l : List Char)
    (h : ∀ c, l.head? = some c → p c = false) : l.dropWhile p = l := by
  cases l with
  | nil => rfl
  | cons a m => rw [List.dropWhile_cons, if_neg (by simp [h a rfl])]

theorem dropEndWhile_eq_self (p : Char → Bool) (l : List Char)
    (h : ∀ c, l.getLast? = some c → p c = false) : dropEndWhile p l = l := by
  have h' : ∀ c, l.reverse.head? = some c → p c = false := by
    intro c hc
    rw [List.head?_reverse] at hc
    exact h c hc
  rw [dropEndWhile, dropWhile_eq_self_of_head p l.reverse h', List.reverse_reverse]

theorem stripL_of_normal (m : List Char)
    (hh : ∀ c, m.head? = some c → isPySpace c = false)
    (hl : ∀ c, m.getLast? = some c → isPySpace c = false) : stripL m = m := by
  rw [stripL, dropWhile_eq_self_of_head _ _ hh]
  exact dropEndWhile_eq_self _ _ hl

theorem normalize_head (l : List Char) :
    ∀ c, (collapseWS (stripL l)).head? = some c → isPySpace c = false := by
  intro c hc
  cases hsl : stripL l with
  | nil =>
    rw [collapseWS_def, hsl] at hc
    exact absurd hc (by simp [collapseAux])
  | cons a rest =>
    have ha : isPySpace a = false := stripL_head l a (by rw [hsl]; rfl)
    rw [collapseWS_def, hsl, collapseAux_false_head a rest ha] at hc
    simp only [Option.some.injEq] at hc
    subst hc
    exact ha

theorem getLast?_cons_isSome (a : Char) : ∀ (l : List Char), ∃ d, (a :: l).getLast? = some d := by
  intro l
  induction l generalizing a with
  | nil => exact ⟨a, rfl⟩
  | cons b m ih =>
    obtain ⟨d, hd⟩ := ih b
    exact ⟨d, by rw [List.getLast?_cons_cons]; exact hd⟩

theorem normalize_last (l : List Char) :
    ∀ c, (collapseWS (stripL l)).getLast? = some c → isPySpace c = false := by
  intro c hc
  cases hsl : stripL l with
  | nil =>
    rw [collapseWS_def, hsl] at hc
    exact absurd hc (by simp [collapseAux])
  | cons a rest =>
    obtain ⟨d, hd⟩ := getLast?_cons_isSome a rest
    have hdw : isPySpace d = false := stripL_getLast l d (by rw [hsl]; exact hd)
    rw [collapseWS_def, hsl, collapseAux_getLast (a :: rest) false d hd hdw] at hc
    simp only [Option.some.injEq] at hc
    subst hc
    exact hdw

theorem normalize_fixed (l : List Char) :
    collapseWS (stripL (collapseWS (stripL l))) = collapseWS (stripL l) := by
  rw [stripL_of_normal _ (normalize_head l) (normalize_last l)]
  exact collapseAux_eq_self _ (noWSRun_collapseAux _ false) (spacesOnly_collapseAux _ false)

theorem mem_stripL {c : Char} {l : List Char} (h : c ∈ stripL l) : c ∈ l := by
  have h1 : c ∈ (l.dropWhile isPySpace).reverse.dropWhile isPySpace := by
    rw [stripL, dropEndWhile] at h
    exact List.mem_reverse.mp h
  have h2 : c ∈ (l.dropWhile isPySpace).reverse :=
    (List.dropWhile_sublist isPySpace).mem h1
  have h3 : c ∈ l.dropWhile isPySpace := List.mem_reverse.mp h2
  exact (List.dropWhile_sublist isPySpace).mem h3

theorem mem_collapseAux : ∀ (l : List Char) (b : Bool) (c : Char),
    c ∈ collapseAux b l → c = ' ' ∨ c ∈ l := by
  intro l
  induction l with
  | nil => intro b c h; simp [collapseAux] at h
  | cons a rest ih =>
    intro b c h
    by_cases hw : isPySpace a = true
    · cases b with
      | true =>
        rw [collapseAux_cons, if_pos hw, if_pos rfl] at h
        rcases ih true c h with h1 | h1
        · exact Or.inl h1
        · exact Or.inr (List.mem_cons_of_mem a h1)
      | false =>
        rw [collapseAux_cons, if_pos hw, if_neg (by simp)] at h
        rcases List.mem_cons.mp h with h1 | h1
        · exact Or.inl h1
        · rcases ih true c h1 with h2 | h2
          · exact Or.inl h2
          · exact Or.inr (List.mem_cons_of_mem a h2)
    · rw [collapseAux_cons, if_neg hw] at h
      rcases List.mem_cons.mp h with h1 | h1
      · exact Or.inr (h1 ▸ List.mem_cons_self a rest)
      · rcases ih false c h1 with h2 | h2
        · exact Or.inl h2
        · exact Or.inr (List.mem_cons_of_mem a h2)

theorem clean_text_eq (s : String) :
    clean_text s = ⟨removeZW (collapseWS (stripL s.data))⟩ := by
  by_cases h : s = ""
  · subst h; rfl
  · rw [clean_text, if_neg h]

theorem removeZW_eq_self (l : List Char) (h : ∀ c ∈ l, isZW c = false) :
    removeZW l = l := by
  rw [removeZW]
  apply List.filter_eq_self.mpr
  intro a ha
  simp [h a ha]

theorem hasZW_def (s : String) : hasZW s = s.data.any (fun c => isZW c) := rfl

theorem hasZW_false_iff (s : String) :
    hasZW s = false ↔ ∀ c ∈ s.data, isZW c = false := by
  rw [hasZW_def]
  simp [List.any_eq_false]

/-- C1 (amended): `clean_text`'s output never contains zero-width characters
— unconditionally, for every input, since their removal is the final step of
the function; and restricted to inputs that contain no zero-width characters,
`clean_text` is idempotent and its output contains no whitespace run longer
than one character.  (The unrestricted idempotence / run-bound claim is
refuted by `c1_clean_text_counterexample`: removing a zero-width character
that separates two whitespace runs happens after whitespace collapsing and
can merge two single spaces into a double space.) -/
theorem c1_clean_text_idempotent_zwfree (s : String) :
    hasZW (clean_text s) = false ∧
    (hasZW s = false →
      clean_text (clean_text s) = clean_text s ∧
      wsRunBounded (clean_text s) = true) := by
  refine ⟨?_, ?_⟩
  · apply (hasZW_false_iff (clean_text s)).mpr
    intro c hc
    rw [clean_text_eq] at hc
    have hc' : c ∈ (collapseWS (stripL s.data)).filter (fun c => !(isZW c)) := hc
    have h2 := (List.mem_filter.mp hc').2
    simpa using h2
  · intro h
    have hzw : ∀ c ∈ s.data, isZW c = false := (hasZW_false_iff s).mp h
    have hmzw : ∀ c ∈ collapseWS (stripL s.data), isZW c = false := by
      intro c hc
      rcases mem_collapseAux _ false c hc with h1 | h1
      · subst h1; decide
      · exact hzw c (mem_stripL h1)
    have hclean : clean_text s = ⟨collapseWS (stripL s.data)⟩ := by
      rw [clean_text_eq, removeZW_eq_self _ hmzw]
    refine ⟨?_, ?_⟩
    · rw [clean_text_eq (clean_text s), hclean]
      show String.mk (removeZW (collapseWS (stripL (collapseWS (stripL s.data))))) =
           String.mk (collapseWS (stripL s.data))
      rw [normalize_fixed s.data, removeZW_eq_self _ hmzw]
    · show noWSRun (clean_text s).data = true
      rw [hclean]
      exact noWSRun_collapseAux _ false

/-- C1 (counterexample): on the input `"a \u200B b"` the zero-width space is
deleted only after whitespace collapsing, yielding `"a  b"`; so `clean_text`
is not idempotent and its output can contain a two-space run, refuting the
claim as stated. -/
theorem c1_clean_text_counterexample :
    clean_text (clean_text "a \u200B b") ≠ clean_text "a \u200B b" ∧
    wsRunBounded (clean_text "a \u200B b") = false := by
  refine ⟨?_, ?_⟩
  · decide
  · decide

theorem c1_witness :
    hasZW "za\u200Bb" = true ∧
    hasZW (clean_text "za\u200Bb") = false ∧
    hasZW "crawl  flow  pipeline" = false ∧
    (clean_text (clean_text "crawl  flow  pipeline") = clean_text "crawl  flow  pipeline" ∧
     wsRunBounded (clean_text "crawl  flow  pipeline") = true) :=
  ⟨by decide, (c1_clean_text_idempotent_zwfree "za\u200Bb").1, by decide,
   (c1_clean_text_idempotent_zwfree "crawl  flow  pipeline").2 (by decide)⟩

/-! ### C2: case-study numbering -/

set_option maxRecDepth 10000 in
/-- C2 (code-bug falsification): `crawl_website` numbers saved case-study
pages by candidate index (`enumerate(..., 1)`), not by fetch-success count.
With two candidates of which the first returns 404 and the second 200, the
single saved page is `case_study_02` and `case_studies_found = 1`, so the
persisted keys are NOT `case_study_01..0k` — a failed candidate does consume
a number, leaving a gap.  The extractor stops its scan at the first missing
number, so the gapped page is then silently ignored downstream
(`scanCases ewGap` reads nothing although `case_study_02.html` exists). -/
theorem c2_case_numbering_gap :
    (crawl_website cwGap "http://a.com" "t" 3 4).status = "success" ∧
    (crawl_website cwGap "http://a.com" "t" 3 4).case_studies_found = some 1 ∧
    caseKeys (crawl_website cwGap "http://a.com" "t" 3 4) = ["case_study_02"] ∧
    caseKeys (crawl_website cwGap "http://a.com" "t" 3 4) ≠ ["case_study_01"] ∧
    scanCases ewGap 10 1 = [] := by
  refine ⟨?_, ?_, ?_, ?_, ?_⟩ <;> decide

/-! ### C5: non-200 homepage -/

/-- C5 (amended): when the homepage fetch completes with a non-200 HTTP
status, `crawl_website` returns terminal status `partial` with reason
`homepage_<status>` (the numeric status interpolated, e.g. `homepage_404`),
writes only the homepage file — with empty content, since the source
discards non-200 bodies — records only the homepage metadata entry, writes
no metadata.json, and attempts no case-study discovery or further fetches. -/
theorem c5_partial_on_non200 (w : CrawlWorld) (url ts : String) (maxCS maxI : Nat)
    (st : Nat) (body : String) (hf : w.fetch url = .ok st body) (hst : st ≠ 200) :
    crawl_website w url ts maxCS maxI =
      { status := "partial", reason := some ("homepage_" ++ toString st),
        files := [("homepage.html", "")],
        pages := [("homepage", okMeta url st 0 ts)],
        metadataWritten := false, case_studies_found := none } := by
  have hb : (st == 200) = false := by simpa using hst
  unfold crawl_website
  rw [hf]
  simp [hb, hst]

/-- C5 (counterexample): with a 404 homepage the returned reason is the
interpolated string `homepage_404`, not the claim's literal reason code
`homepage_status`. -/
theorem c5_reason_counterexample :
    (crawl_website cw404 "http://x.com" "t" 3 4).status = "partial" ∧
    (crawl_website cw404 "http://x.com" "t" 3 4).reason = some "homepage_404" ∧
    (crawl_website cw404 "http://x.com" "t" 3 4).reason ≠ some "homepage_status" := by
  refine ⟨?_, ?_, ?_⟩ <;> decide

theorem c5_witness :
    cw404.fetch "http://x.com" = .ok 404 "not found page" ∧ (404 : Nat) ≠ 200 ∧
    crawl_website cw404 "http://x.com" "t" 3 4 =
      { status := "partial", reason := some ("homepage_" ++ toString (404 : Nat)),
        files := [("homepage.html", "")],
        pages := [("homepage", okMeta "http://x.com" 404 0 "t")],
        metadataWritten := false, case_studies_found := none } :=
  ⟨rfl, by decide,
   c5_partial_on_non200 cw404 "http://x.com" "t" 3 4 404 "not found page" rfl (by decide)⟩

/-! ### C10: metadata.json only on the success path -/

theorem crawl_partial_no_metadata (w : CrawlWorld) (url ts : String) (maxCS maxI : Nat) :
    ((crawl_website w url ts maxCS maxI).status = "failed" ∨
     (crawl_website w url ts maxCS maxI).status = "partial") →
    (crawl_website w url ts maxCS maxI).metadataWritten = false := by
  unfold crawl_website
  split
  · intro _; rfl
  · dsimp only
    split
    · intro _; rfl
    · split
      · intro _; rfl
      · intro h
        rcases h with h | h <;> simp at h

/-- C10: `metadata.json` is written only on the full success path: every run
ending `failed` (homepage transport error) or `partial` (non-200 homepage or
discovery failure) writes no metadata file, and a Transform run whose
metadata input is missing (raw directory present, extracted.json present)
reports `skipped` with reason `missing_inputs`. -/
theorem c10_metadata_only_on_success (w : CrawlWorld) (url ts : String)
    (maxCS maxI : Nat) (url2 ts2 : String) (ex : Extracted)
    (h : (crawl_website w url ts maxCS maxI).status = "failed" ∨
         (crawl_website w url ts maxCS maxI).status = "partial") :
    (crawl_website w url ts maxCS maxI).metadataWritten = false ∧
    transform_to_standard url2
      { rawDirExists := true, extractedFile := some ex, metadataFile := none } ts2 =
      .skipped "missing_inputs" :=
  ⟨crawl_partial_no_metadata w url ts maxCS maxI h, rfl⟩

theorem c10_witness :
    ((crawl_website cwErr "http://x.com" "t" 3 4).status = "failed" ∨
     (crawl_website cwErr "http://x.com" "t" 3 4).status = "partial") ∧
    ((crawl_website cwErr "http://x.com" "t" 3 4).metadataWritten = false ∧
     transform_to_standard "http://x.com"
       { rawDirExists := true, extractedFile := some exSample, metadataFile := none } "t2" =
       .skipped "missing_inputs") :=
  ⟨Or.inl (by decide),
   c10_metadata_only_on_success cwErr "http://x.com" "t" 3 4 "http://x.com" "t2" exSample
     (Or.inl (by decide))⟩

/-! ### C3: transform records -/

/-- C3: when both `extracted.json` and `metadata.json` exist,
`transform_to_standard` succeeds and emits exactly one Record per section key
(in order, including empty-content sections), and every Record carries
`isActive = (recorded homepage status == 200) AND (some section non-empty)`
and the single run timestamp. -/
theorem c3_transform_records (url ts : String) (ex : Extracted) (md : CrawlMetadata)
    (recs : List Record)
    (h : transform_to_standard url
          { rawDirExists := true, extractedFile := some ex, metadataFile := some md } ts
          = .success recs) :
    recs.length = ex.sections.length ∧
    recs.map (fun r => r.sectionName) = ex.sections.map (fun p => p.1) ∧
    ∀ r ∈ recs,
      r.isActive = ((homepageStatus md == 200) && ex.sections.any (fun p => p.2.length > 0)) ∧
      r.crawl_timestamp = ts := by
  have h' : recs = ex.sections.map (fun p =>
      { website := url, sectionName := p.1, content := p.2, crawl_timestamp := ts,
        isActive := (homepageStatus md == 200) &&
          ex.sections.any (fun q => q.2.length > 0) }) := by
    unfold transform_to_standard at h
    simp at h
    exact h.symm
  subst h'
  refine ⟨by simp, by simp, ?_⟩
  intro r hr
  simp only [List.mem_map] at hr
  obtain ⟨p, hp, rfl⟩ := hr
  exact ⟨rfl, rfl⟩

theorem c3_witness :
    transform_to_standard "http://a.com"
      { rawDirExists := true, extractedFile := some exSample, metadataFile := some mdSample } "t"
      = .success [⟨"http://a.com", "homepage", "Hello world", "t", true⟩,
                  ⟨"http://a.com", "navbar", "", "t", true⟩,
                  ⟨"http://a.com", "case_study", "Great success", "t", true⟩] ∧
    ([⟨"http://a.com", "homepage", "Hello world", "t", true⟩,
      ⟨"http://a.com", "navbar", "", "t", true⟩,
      (⟨"http://a.com", "case_study", "Great success", "t", true⟩ : Record)].length
        = exSample.sections.length ∧
     [⟨"http://a.com", "homepage", "Hello world", "t", true⟩,
      ⟨"http://a.com", "navbar", "", "t", true⟩,
      (⟨"http://a.com", "case_study", "Great success", "t", true⟩ : Record)].map
        (fun r => r.sectionName) = exSample.sections.map (fun p => p.1) ∧
     ∀ r ∈ [⟨"http://a.com", "homepage", "Hello world", "t", true⟩,
            ⟨"http://a.com", "navbar", "", "t", true⟩,
            (⟨"http://a.com", "case_study", "Great success", "t", true⟩ : Record)],
       r.isActive = ((homepageStatus mdSample == 200) &&
         exSample.sections.any (fun p => p.2.length > 0)) ∧
       r.crawl_timestamp = "t") :=
  ⟨by decide,
   c3_transform_records "http://a.com" "t" exSample mdSample
     [⟨"http://a.com", "homepage", "Hello world", "t", true⟩,
      ⟨"http://a.com", "navbar", "", "t", true⟩,
      ⟨"http://a.com", "case_study", "Great success", "t", true⟩] (by decide)⟩

/-! ### C6: de-duplication of the candidate lists -/

/-- C6 (counterexample): two identical internal links are both appended —
the internal-candidates list is NOT de-duplicated, refuting the claim for
that list. -/
theorem c6_internal_dup_counterexample :
    (classifyLinks (fun h => h) "http://x.com/" 4
        ["http://x.com/about", "http://x.com/about"]).2 =
      ["http://x.com/about", "http://x.com/about"] ∧
    ¬ (classifyLinks (fun h => h) "http://x.com/" 4
        ["http://x.com/about", "http://x.com/about"]).2.Nodup := by
  refine ⟨?_, ?_⟩ <;> decide

theorem nodup_append_singleton {l : List String} {a : String}
    (hl : l.Nodup) (ha : a ∉ l) : (l ++ [a]).Nodup := by
  induction l with
  | nil => simp
  | cons b m ih =>
    simp only [List.cons_append, List.nodup_cons] at hl ⊢
    refine ⟨?_, ih hl.2 (fun hm => ha (List.mem_cons_of_mem b hm))⟩
    intro hmem
    rcases List.mem_append.mp hmem with h1 | h1
    · exact hl.1 h1
    · simp only [List.mem_singleton] at h1
      subst h1
      exact ha (List.mem_cons_self b m)

theorem classify_fold_cs_nodup (resolve : String → String) (url : String) (maxI : Nat) :
    ∀ (hrefs : List String) (st : List String × List String), st.1.Nodup →
    (hrefs.foldl (classifyStep resolve url maxI) st).1.Nodup := by
  intro hrefs
  induction hrefs with
  | nil => intro st h; exact h
  | cons href rest ih =>
    intro st h
    apply ih
    show ((classifyStep resolve url maxI st href).1).Nodup
    unfold classifyStep
    dsimp only
    split
    · exact h
    · split
      · exact h
      · split
        · split
          · exact h
          · exact nodup_append_singleton h (by assumption)
        · split
          · split
            · exact h
            · exact h
          · exact h

/-- C6 (amended): only the case-study candidate list is de-duplicated (by
exact resolved-URL string equality); the internal-candidates list is only
capped and may contain the same resolved URL twice. -/
theorem c6_case_study_candidates_nodup (resolve : String → String) (url : String)
    (maxI : Nat) (hrefs : List String) :
    (classifyLinks resolve url maxI hrefs).1.Nodup :=
  classify_fold_cs_nodup resolve url maxI hrefs ([], []) (by simp)

/-! ### C7: case-study links never become internal candidates -/

theorem classify_step_internal_origin (resolve : String → String) (url : String)
    (maxI : Nat) (st : List String × List String) (href u : String)
    (hu : u ∈ (classifyStep resolve url maxI st href).2) :
    u ∈ st.2 ∨ (resolve (stripStr href) = u ∧
      containsSubStr (toLowerStr (stripStr href)) "case-study" = false) := by
  revert hu
  unfold classifyStep
  dsimp only
  split
  · exact fun hu => Or.inl hu
  · split
    · exact fun hu => Or.inl hu
    · split
      · split
        · exact fun hu => Or.inl hu
        · exact fun hu => Or.inl hu
      · rename_i hkw
        split
        · split
          · intro hu
            rcases List.mem_append.mp hu with h2 | h2
            · exact Or.inl h2
            · simp only [List.mem_singleton] at h2
              subst h2
              refine Or.inr ⟨rfl, ?_⟩
              by_contra hne
              apply hkw
              refine List.any_eq_true.mpr ⟨"case-study", by decide, ?_⟩
              simpa using hne
          · exact fun hu => Or.inl hu
        · exact fun hu => Or.inl hu

theorem classify_fold_internal_origin (resolve : String → String) (url : String)
    (maxI : Nat) :
    ∀ (hrefs : List String) (st : List String × List String) (u : String),
      u ∈ (hrefs.foldl (classifyStep resolve url maxI) st).2 →
      u ∈ st.2 ∨ ∃ hr ∈ hrefs, resolve (stripStr hr) = u ∧
        containsSubStr (toLowerStr (stripStr hr)) "case-study" = false := by
  intro hrefs
  induction hrefs with
  | nil => intro st u hu; exact Or.inl hu
  | cons href rest ih =>
    intro st u hu
    rcases ih (classifyStep resolve url maxI st href) u hu with h1 | h1
    · rcases classify_step_internal_origin resolve url maxI st href u h1 with h2 | h2
      · exact Or.inl h2
      · exact Or.inr ⟨href, List.mem_cons_self href rest, h2.1, h2.2⟩
    · obtain ⟨hr, hhr, hres⟩ := h1
      exact Or.inr ⟨hr, List.mem_cons_of_mem href hhr, hres⟩

/-- C7: every URL in the internal-candidates list originates from some anchor
whose lowercased stripped href does not contain "case-study"; hence an anchor
whose lowercased href contains "case-study" is never the source of an
internal-candidate entry, even when its resolved URL has the base URL as a
strict prefix (the keyword test is checked first and wins). -/
theorem c7_case_study_never_internal (resolve : String → String) (url : String)
    (maxI : Nat) (hrefs : List String) (u : String)
    (hu : u ∈ (classifyLinks resolve url maxI hrefs).2) :
    ∃ hr ∈ hrefs, resolve (stripStr hr) = u ∧
      containsSubStr (toLowerStr (stripStr hr)) "case-study" = false := by
  rcases classify_fold_internal_origin resolve url maxI hrefs ([], []) u hu with h | h
  · simp at h
  · exact h

theorem c7_witness :
    ("http://x.com/about" ∈ (classifyLinks (fun h => h) "http://x.com/" 4
        ["http://x.com/about"]).2) ∧
    (∃ hr ∈ ["http://x.com/about"],
      (fun h => h) (stripStr hr) = "http://x.com/about" ∧
      containsSubStr (toLowerStr (stripStr hr)) "case-study" = false) :=
  ⟨by decide,
   c7_case_study_never_internal (fun h => h) "http://x.com/" 4
     ["http://x.com/about"] "http://x.com/about" (by decide)⟩

/-! ### C9: the case-study scan and the case_study key -/

theorem scanCases_zero (ew : ExtractWorld) (i : Nat) : scanCases ew 0 i = [] := rfl

theorem scanCases_unfold (ew : ExtractWorld) (fuel i : Nat) :
    scanCases ew (fuel + 1) i =
      (match ew.caseFile i with
       | none => []
       | some html =>
         let t := ew.extractSec html "case_study"
         if t ≠ "" then t :: scanCases ew fuel (i + 1)
         else scanCases ew fuel (i + 1)) := rfl

theorem scanCases_none (ew : ExtractWorld) (fuel i : Nat) (h : ew.caseFile i = none) :
    scanCases ew (fuel + 1) i = [] := by
  rw [scanCases_unfold, h]

theorem scanCases_some (ew : ExtractWorld) (fuel i : Nat) (html : String)
    (h : ew.caseFile i = some html) :
    scanCases ew (fuel + 1) i =
      if ew.extractSec html "case_study" ≠ ""
      then ew.extractSec html "case_study" :: scanCases ew fuel (i + 1)
      else scanCases ew fuel (i + 1) := by
  rw [scanCases_unfold, h]

theorem range'_cons_one (s n : Nat) : List.range' s (n + 1) = s :: List.range' (s + 1) n := rfl

theorem scanCases_eq (ew : ExtractWorld) :
    ∀ (fuel start g : Nat), start ≤ g → g ≤ start + fuel →
      (∀ i, start ≤ i → i < g → (ew.caseFile i).isSome) →
      ew.caseFile g = none →
      scanCases ew fuel start =
        ((List.range' start (g - start)).map
          (fun i => ew.extractSec ((ew.caseFile i).getD "") "case_study")).filter
          (fun t => t ≠ "") := by
  intro fuel
  induction fuel with
  | zero =>
    intro start g h1 h2 _ _
    have hg : g = start := Nat.le_antisymm (by simpa using h2) h1
    subst hg
    simp [scanCases_zero]
  | succ fuel ih =>
    intro start g h1 h2 hpres hnone
    by_cases hsg : start = g
    · subst hsg
      rw [scanCases_none ew fuel start hnone]
      simp
    · have hlt : start < g := Nat.lt_of_le_of_ne h1 hsg
      obtain ⟨html, hhtml⟩ := Option.isSome_iff_exists.mp (hpres start le_rfl hlt)
      have hrange : g - start = (g - (start + 1)) + 1 := by omega
      have hrest : scanCases ew fuel (start + 1) =
          ((List.range' (start + 1) (g - (start + 1))).map
            (fun i => ew.extractSec ((ew.caseFile i).getD "") "case_study")).filter
            (fun t => t ≠ "") :=
        ih (start + 1) g hlt (by omega) (fun i hi1 hi2 => hpres i (by omega) hi2) hnone
      rw [scanCases_some ew fuel start html hhtml, hrange, range'_cons_one,
        List.map_cons, List.filter_cons]
      simp only [hhtml, Option.getD_some]
      rw [hrest]
      by_cases ht : ew.extractSec html "case_study" = ""
      · simp [ht]
      · simp [ht]

theorem lookupKey_cons {α : Type} (k' : String) (v : α) (rest : List (String × α))
    (k : String) :
    lookupKey ((k', v) :: rest) k = if k' == k then some v else lookupKey rest k := rfl

theorem lookupKey_extractBase_case (ew : ExtractWorld) :
    lookupKey (extractBase ew) "case_study" = none := by
  unfold extractBase
  cases ew.homepageFile with
  | none => rfl
  | some html =>
    dsimp only
    split
    · rfl
    · rfl

theorem lookupKey_append_last {α : Type} (l : List (String × α)) (k : String) (v : α)
    (h : lookupKey l k = none) : lookupKey (l ++ [(k, v)]) k = some v := by
  induction l with
  | nil => simp [lookupKey_cons]
  | cons p rest ih =>
    rcases p with ⟨k', v'⟩
    rw [lookupKey_cons] at h
    by_cases hk : (k' == k) = true
    · rw [if_pos hk] at h; cases h
    · rw [if_neg hk] at h
      rw [List.cons_append, lookupKey_cons, if_neg hk]
      exact ih h

/-- C9 (amended): the Extraction Stage scans case-study bodies in ascending
numeric order stopping at the first missing number (a gap terminates the scan
without error), and the SectionMap's `case_study` entry equals the
single-space join of the NON-EMPTY per-page extracted texts, in page order;
the key is present exactly when at least one page yields non-empty text, and
absent otherwise (empty page texts are also skipped by the join). -/
theorem c9_case_study_scan (ew : ExtractWorld) (fuel g : Nat)
    (hraw : ew.rawDirExists = true) (hg : 1 ≤ g) (hfuel : g ≤ 1 + fuel)
    (hpres : ∀ i, 1 ≤ i → i < g → (ew.caseFile i).isSome)
    (hnone : ew.caseFile g = none) :
    ∃ secs, extract_and_tag ew fuel = .success secs ∧
      (let texts := ((List.range' 1 (g - 1)).map
          (fun i => ew.extractSec ((ew.caseFile i).getD "") "case_study")).filter
          (fun t => t ≠ "")
       lookupKey secs "case_study" =
         if texts = [] then none else some (joinSpace texts)) := by
  have hscan : scanCases ew fuel 1 = ((List.range' 1 (g - 1)).map
      (fun i => ew.extractSec ((ew.caseFile i).getD "") "case_study")).filter
      (fun t => t ≠ "") := scanCases_eq ew fuel 1 g hg hfuel hpres hnone
  unfold extract_and_tag
  rw [hraw]
  rw [if_neg (by decide : ¬ (true = false))]
  dsimp only
  rw [hscan]
  by_cases hts : ((List.range' 1 (g - 1)).map
      (fun i => ew.extractSec ((ew.caseFile i).getD "") "case_study")).filter
      (fun t => t ≠ "") = []
  · rw [if_neg (fun hne => hne hts)]
    refine ⟨extractBase ew, rfl, ?_⟩
    dsimp only
    rw [if_pos hts]
    exact lookupKey_extractBase_case ew
  · rw [if_pos hts]
    refine ⟨_, rfl, ?_⟩
    dsimp only
    rw [if_neg hts]
    exact lookupKey_append_last _ _ _ (lookupKey_extractBase_case ew)

/-- C9 (counterexample): case-study extraction is attempted (page 1 exists
and is read) but yields empty text, so `case_content` stays empty and the
`case_study` key is absent from the SectionMap, where the claim requires it
to be present as an (empty) value once extraction was attempted. -/
theorem c9_absent_key_counterexample :
    extract_and_tag ewEmptyCase 10 = .success [] ∧
    lookupKey ([] : List (String × String)) "case_study" = none := by
  refine ⟨?_, rfl⟩
  decide

theorem c9_witness :
    ewThree.rawDirExists = true ∧ 1 ≤ 4 ∧ 4 ≤ 1 + 10 ∧
    ewThree.caseFile 4 = none ∧
    (∃ secs, extract_and_tag ewThree 10 = .success secs ∧
      (let texts := ((List.range' 1 (4 - 1)).map
          (fun i => ewThree.extractSec ((ewThree.caseFile i).getD "") "case_study")).filter
          (fun t => t ≠ "")
       lookupKey secs "case_study" =
         if texts = [] then none else some (joinSpace texts))) :=
  ⟨rfl, by decide, by decide, rfl,
   c9_case_study_scan ewThree 10 4 rfl (by decide) (by decide)
     (by intro i h1 h2; interval_cases i <;> decide) rfl⟩

/-! ### C4: active + inactive = total -/

theorem filter_true_false_length (was : List (String × Bool)) :
    (was.filter (fun p => p.2 == true)).length +
      (was.filter (fun p => p.2 == false)).length = was.length := by
  induction was with
  | nil => rfl
  | cons p rest ih =>
    rcases p with ⟨k, b⟩
    cases b <;> simp [List.filter_cons] at ih ⊢ <;> omega

theorem gatherStep_none (w : AggWorld) (st : List Record × List (String × Bool))
    (url : String) (h : w.processedFile url = none) : gatherStep w st url = st := by
  unfold gatherStep
  rw [h]

theorem gatherStep_nil (w : AggWorld) (st : List Record × List (String × Bool))
    (url : String) (h : w.processedFile url = some []) :
    gatherStep w st url = (st.1 ++ [], st.2) := by
  unfold gatherStep
  rw [h]

theorem gatherStep_cons (w : AggWorld) (st : List Record × List (String × Bool))
    (url : String) (r : Record) (rs : List Record)
    (h : w.processedFile url = some (r :: rs)) :
    gatherStep w st url = (st.1 ++ (r :: rs), dictInsert st.2 url r.isActive) := by
  unfold gatherStep
  rw [h]

theorem gather_fold_ne_nil (w : AggWorld) :
    ∀ (urls : List String) (st : List Record × List (String × Bool)),
      (st.1 ≠ [] ∨ ∃ u ∈ urls, ∃ recs, w.processedFile u = some recs ∧ recs ≠ []) →
      (urls.foldl (gatherStep w) st).1 ≠ [] := by
  intro urls
  induction urls with
  | nil =>
    intro st h
    rcases h with h | ⟨u, hu, _⟩
    · exact h
    · exact absurd hu (List.not_mem_nil u)
  | cons url rest ih =>
    intro st h
    apply ih
    rcases h with h | ⟨u, hu, recs, hrecs, hrne⟩
    · left
      cases hpf : w.processedFile url with
      | none => rw [gatherStep_none w st url hpf]; exact h
      | some records =>
        cases records with
        | nil =>
          rw [gatherStep_nil w st url hpf]
          dsimp only
          intro hc
          exact h (List.append_eq_nil.mp hc).1
        | cons r rs =>
          rw [gatherStep_cons w st url r rs hpf]
          dsimp only
          intro hc
          exact h (List.append_eq_nil.mp hc).1
    · rcases List.mem_cons.mp hu with heq | hu'
      · subst heq
        left
        cases recs with
        | nil => exact absurd rfl hrne
        | cons r rs =>
          rw [gatherStep_cons w st u r rs hrecs]
          dsimp only
          intro hc
          exact absurd (List.append_eq_nil.mp hc).2 (by simp)
      · right
        exact ⟨u, hu', recs, hrecs, hrne⟩

/-- C4: whenever at least one configured site has a persisted non-empty
Record list, the aggregator produces a Summary, and that Summary satisfies
`active_websites + inactive_websites = total_websites_processed` (the two
counts partition the per-site isActive dictionary, whose size is the
total). -/
theorem c4_active_plus_inactive (w : AggWorld) (ts : String)
    (h : ∃ u ∈ w.websites, ∃ recs, w.processedFile u = some recs ∧ recs ≠ []) :
    ∃ s, compute_and_save_metrics w ts = .success s ∧
      s.active_websites + s.inactive_websites = s.total_websites_processed := by
  have hne : (gather w).1 ≠ [] := gather_fold_ne_nil w w.websites ([], []) (Or.inr h)
  refine ⟨{ total_websites_processed := (gather w).2.length,
            num_websites_with_case_studies := ((gather w).1.filter
              (fun r => r.sectionName == "case_study" && r.content.length > 0)).length,
            active_websites := ((gather w).2.filter (fun p => p.2 == true)).length,
            inactive_websites := ((gather w).2.filter (fun p => p.2 == false)).length,
            content_length_stats := (sectionLengthsDict (gather w).1).map
              (fun p => (p.1, statsOf p.2)),
            aggregation_timestamp := ts }, ?_, ?_⟩
  · unfold compute_and_save_metrics
    rw [if_neg hne]
  · exact filter_true_false_length (gather w).2

theorem c4_witness :
    (∃ u ∈ aggW3.websites, ∃ recs, aggW3.processedFile u = some recs ∧ recs ≠ []) ∧
    (∃ s, compute_and_save_metrics aggW3 "t" = .success s ∧
      s.active_websites + s.inactive_websites = s.total_websites_processed) :=
  ⟨⟨"http://a.com", by decide, [homepageRecordOfLen "http://a.com" 100], rfl, by decide⟩,
   c4_active_plus_inactive aggW3 "t"
     ⟨"http://a.com", by decide, [homepageRecordOfLen "http://a.com" 100], rfl, by decide⟩⟩

/-! ### C8: per-section content length statistics -/

theorem dictAppendLen_cons (k' : String) (v : List Nat) (rest : List (String × List Nat))
    (k : String) (n : Nat) :
    dictAppendLen ((k', v) :: rest) k n =
      if k' == k then (k', v ++ [n]) :: rest else (k', v) :: dictAppendLen rest k n := rfl

theorem lookupKey_dictAppendLen_same (d : List (String × List Nat)) (k : String) (n : Nat) :
    lookupKey (dictAppendLen d k n) k = some ((lookupKey d k).getD [] ++ [n]) := by
  induction d with
  | nil => simp [dictAppendLen, lookupKey_cons, lookupKey]
  | cons p rest ih =>
    rcases p with ⟨k', v⟩
    by_cases hk : (k' == k) = true
    · rw [dictAppendLen_cons, if_pos hk, lookupKey_cons, if_pos hk, lookupKey_cons, if_pos hk]
      simp
    · rw [dictAppendLen_cons, if_neg hk, lookupKey_cons, if_neg hk, lookupKey_cons, if_neg hk]
      exact ih

theorem lookupKey_dictAppendLen_ne (d : List (String × List Nat)) (k s : String) (n : Nat)
    (hne : (k == s) = false) :
    lookupKey (dictAppendLen d k n) s = lookupKey d s := by
  induction d with
  | nil => simp [dictAppendLen, lookupKey_cons, lookupKey, hne]
  | cons p rest ih =>
    rcases p with ⟨k', v⟩
    by_cases hk : (k' == k) = true
    · have hk' : k' = k := by simpa using hk
      subst hk'
      rw [dictAppendLen_cons, if_pos (by simp)]
      simp [lookupKey_cons, hne]
    · rw [dictAppendLen_cons, if_neg hk]
      by_cases hs : (k' == s) = true
      · simp [lookupKey_cons, hs]
      · simp [lookupKey_cons, hs, ih]

theorem sectionLengthsSpec_cons (r : Record) (rs : List Record) (s : String) :
    sectionLengthsSpec (r :: rs) s =
      if r.content.length > 0 ∧ r.sectionName = s
      then r.content.length :: sectionLengthsSpec rs s
      else sectionLengthsSpec rs s := by
  unfold sectionLengthsSpec
  rw [List.filter_cons]
  by_cases h1 : r.content.length > 0
  · by_cases h2 : r.sectionName = s
    · simp [h1, h2]
    · simp [h1, h2]
  · simp [h1]

theorem sectionLengths_fold_some (s : String) :
    ∀ (rs : List Record) (d : List (String × List Nat)) (xs : List Nat),
      lookupKey d s = some xs →
      lookupKey (rs.foldl (fun d r =>
        if r.content.length > 0 then dictAppendLen d r.sectionName r.content.length else d) d) s
        = some (xs ++ sectionLengthsSpec rs s) := by
  intro rs
  induction rs with
  | nil =>
    intro d xs h
    simp [sectionLengthsSpec, h]
  | cons r rest ih =>
    intro d xs h
    rw [sectionLengthsSpec_cons, List.foldl_cons]
    by_cases h1 : r.content.length > 0
    · rw [if_pos h1]
      by_cases h2 : r.sectionName = s
      · rw [if_pos ⟨h1, h2⟩]
        subst h2
        have hd' : lookupKey (dictAppendLen d r.sectionName r.content.length) r.sectionName
            = some (xs ++ [r.content.length]) := by
          rw [lookupKey_dictAppendLen_same, h]
          simp
        have h3 := ih (dictAppendLen d r.sectionName r.content.length)
          (xs ++ [r.content.length]) hd'
        rw [h3]
        simp
      · rw [if_neg (fun hc => h2 hc.2)]
        have hne : (r.sectionName == s) = false := by simpa using h2
        refine ih _ xs ?_
        rw [lookupKey_dictAppendLen_ne _ _ _ _ hne, h]
    · rw [if_neg h1, if_neg (fun hc => h1 hc.1)]
      exact ih d xs h

theorem sectionLengths_fold_none (s : String) :
    ∀ (rs : List Record) (d : List (String × List Nat)),
      lookupKey d s = none →
      lookupKey (rs.foldl (fun d r =>
        if r.content.length > 0 then dictAppendLen d r.sectionName r.content.length else d) d) s
        = if sectionLengthsSpec rs s = [] then none
          else some (sectionLengthsSpec rs s) := by
  intro rs
  induction rs with
  | nil =>
    intro d h
    simp [sectionLengthsSpec, h]
  | cons r rest ih =>
    intro d h
    rw [List.foldl_cons]
    by_cases h1 : r.content.length > 0
    · rw [if_pos h1]
      by_cases h2 : r.sectionName = s
      · subst h2
        have hd' : lookupKey (dictAppendLen d r.sectionName r.content.length) r.sectionName
            = some [r.content.length] := by
          rw [lookupKey_dictAppendLen_same, h]
          simp
        have h3 := sectionLengths_fold_some r.sectionName rest
          (dictAppendLen d r.sectionName r.content.length) [r.content.length] hd'
        rw [h3]
        have hspec : sectionLengthsSpec (r :: rest) r.sectionName
            = r.content.length :: sectionLengthsSpec rest r.sectionName := by
          rw [sectionLengthsSpec_cons, if_pos ⟨h1, rfl⟩]
        rw [hspec, if_neg (by simp)]
        simp
      · have hspec : sectionLengthsSpec (r :: rest) s = sectionLengthsSpec rest s := by
          rw [sectionLengthsSpec_cons, if_neg (fun hc => h2 hc.2)]
        rw [hspec]
        have hne : (r.sectionName == s) = false := by simpa using h2
        refine ih _ ?_
        rw [lookupKey_dictAppendLen_ne _ _ _ _ hne, h]
    · rw [if_neg h1]
      have hspec : sectionLengthsSpec (r :: rest) s = sectionLengthsSpec rest s := by
        rw [sectionLengthsSpec_cons, if_neg (fun hc => h1 hc.1)]
      rw [hspec]
      exact ih d h

theorem lookupKey_map_stats (d : List (String × List Nat)) (s : String) :
    lookupKey (d.map (fun p => (p.1, statsOf p.2))) s = (lookupKey d s).map statsOf := by
  induction d with
  | nil => rfl
  | cons p rest ih =>
    rcases p with ⟨k', v⟩
    by_cases hk : (k' == s) = true
    · simp [List.map_cons, lookupKey_cons, hk]
    · simp [List.map_cons, lookupKey_cons, hk, ih]

/-- C8: in any successful aggregation run, the per-section stats entry for a
section `s` is computed over exactly the gathered Records with non-empty
content and section `s`: the entry is absent when there are none, and
otherwise holds the minimum, maximum, mean rounded half-to-even to 2 decimal
places, and count of their content lengths. -/
theorem c8_section_stats (w : AggWorld) (ts s : String) (m : Summary)
    (h : compute_and_save_metrics w ts = .success m) :
    lookupKey m.content_length_stats s =
      if sectionLengthsSpec (gather w).1 s = [] then none
      else some (statsOf (sectionLengthsSpec (gather w).1 s)) := by
  unfold compute_and_save_metrics at h
  by_cases hne : (gather w).1 = []
  · rw [if_pos hne] at h
    cases h
  · rw [if_neg hne] at h
    cases h
    show lookupKey ((sectionLengthsDict (gather w).1).map (fun p => (p.1, statsOf p.2))) s =
      if sectionLengthsSpec (gather w).1 s = [] then none
      else some (statsOf (sectionLengthsSpec (gather w).1 s))
    rw [lookupKey_map_stats]
    have h1 := sectionLengths_fold_none s (gather w).1 [] rfl
    rw [show sectionLengthsDict (gather w).1 = (gather w).1.foldl (fun d r =>
        if r.content.length > 0 then dictAppendLen d r.sectionName r.content.length else d) []
      from rfl]
    rw [h1]
    by_cases hsp : sectionLengthsSpec (gather w).1 s = []
    · simp [hsp]
    · simp [hsp]

set_option maxRecDepth 100000 in
theorem c8_witness :
    compute_and_save_metrics aggW3 "t" = .success aggW3summary ∧
    (lookupKey aggW3summary.content_length_stats "homepage" =
      if sectionLengthsSpec (gather aggW3).1 "homepage" = [] then none
      else some (statsOf (sectionLengthsSpec (gather aggW3).1 "homepage"))) ∧
    statsOf [100, 200, 300] = { min := 100, max := 300, avg := mkRat 200 1, count := 3 } :=
  ⟨by decide, c8_section_stats aggW3 "t" "homepage" aggW3summary (by decide), by decide⟩
